import Mathlib

/-!
Verification of the Windows x64 unwind-information encoder
(`cranelift/codegen/src/isa/unwind/winx64.rs`).

Machine integers are modelled as `Nat` with explicit `% 2 ^ w` truncation at
the points where the Rust code casts or where wrapping can occur.  Fallible
operations (slice-index panics and `assert!` failures) are modelled with
`Option`: `none` means the Rust code panics.
-/

namespace Winx64

/-- Maximum (inclusive) size of a "small" stack allocation. -/
def SMALL_ALLOC_MAX_SIZE : Nat := 128

/-- Maximum (inclusive) size of a "large" stack allocation representable in 16 bits. -/
def LARGE_ALLOC_16BIT_MAX_SIZE : Nat := 524280

/-- Writer wraps a byte buffer of fixed length together with a write cursor. -/
structure Writer where
  buf : List Nat
  offset : Nat
deriving DecidableEq

/-- Writer::write_u8: stores one byte and advances the cursor; out-of-bounds indexing panics. -/
def Writer.write_u8 (w : Writer) (v : Nat) : Option Writer :=
  if w.offset < w.buf.length then
    some ⟨w.buf.set w.offset (v % 256), w.offset + 1⟩
  else none

/-- Writer::write_u16 with little-endian byte order; slicing past the end panics. -/
def Writer.write_u16 (w : Writer) (v : Nat) : Option Writer :=
  if w.offset + 2 ≤ w.buf.length then
    some ⟨(w.buf.set w.offset (v % 256)).set (w.offset + 1) (v / 256 % 256), w.offset + 2⟩
  else none

/-- Writer::write_u32 with little-endian byte order; slicing past the end panics. -/
def Writer.write_u32 (w : Writer) (v : Nat) : Option Writer :=
  if w.offset + 4 ≤ w.buf.length then
    some ⟨(((w.buf.set w.offset (v % 256)).set (w.offset + 1) (v / 256 % 256)).set
        (w.offset + 2) (v / 65536 % 256)).set (w.offset + 3) (v / 16777216 % 256),
      w.offset + 4⟩
  else none

/-- The supported unwind codes for the x64 Windows ABI. -/
inductive UnwindCode where
  | PushRegister (offset : Nat) (reg : Nat)
  | SaveXmm (offset : Nat) (reg : Nat) (stack_offset : Nat)
  | StackAlloc (offset : Nat) (size : Nat)
deriving DecidableEq

namespace UnwindCode

/-- UnwindCode::emit.  Opcode values: PushNonvolatileRegister = 0, LargeStackAlloc = 1,
SmallStackAlloc = 2, SaveXmm128 = 8, SaveXmm128Far = 9.  The `assert!` statements of
the StackAlloc arm are modelled by returning `none` when they would fire. -/
def emit (c : UnwindCode) (w : Writer) : Option Writer :=
  match c with
  | PushRegister offset reg =>
      (w.write_u8 offset).bind fun w =>
        w.write_u8 (Nat.lor (reg * 16 % 256) 0)
  | SaveXmm offset reg stack_offset =>
      (w.write_u8 offset).bind fun w =>
        let so := stack_offset / 16
        if so ≤ 65535 then
          (w.write_u8 (Nat.lor (reg * 16 % 256) 8)).bind fun w =>
            w.write_u16 (so % 65536)
        else
          (w.write_u8 (Nat.lor (reg * 16 % 256) 9)).bind fun w =>
            (w.write_u16 (so % 65536)).bind fun w =>
              w.write_u16 (so / 65536 % 65536)
  | StackAlloc offset size =>
      if 8 ≤ size ∧ size % 8 = 0 then
        (w.write_u8 offset).bind fun w =>
          if size ≤ SMALL_ALLOC_MAX_SIZE then
            w.write_u8 (Nat.lor ((size - 8) / 8 % 256 * 16 % 256) 2)
          else if size ≤ LARGE_ALLOC_16BIT_MAX_SIZE then
            (w.write_u8 1).bind fun w =>
              w.write_u16 (size / 8 % 65536)
          else
            (w.write_u8 (Nat.lor 16 1)).bind fun w =>
              w.write_u32 size
      else none

/-- UnwindCode::node_count.  Note that the SaveXmm arm tests the unscaled
`stack_offset`, whereas `emit` tests `stack_offset / 16`. -/
def node_count (c : UnwindCode) : Nat :=
  match c with
  | StackAlloc _ size =>
      if size ≤ SMALL_ALLOC_MAX_SIZE then 1
      else if size ≤ LARGE_ALLOC_16BIT_MAX_SIZE then 2
      else 3
  | SaveXmm _ _ stack_offset =>
      if stack_offset ≤ 65535 then 2 else 3
  | _ => 1

/-- The byte sequence that `emit` writes for a code (when its assertions pass),
expressed as a pure list.  Each entry is exactly the value stored by the
corresponding `Writer` write. -/
def encoding (c : UnwindCode) : List Nat :=
  match c with
  | PushRegister offset reg =>
      [offset % 256, Nat.lor (reg * 16 % 256) 0 % 256]
  | SaveXmm offset reg stack_offset =>
      let so := stack_offset / 16
      if so ≤ 65535 then
        [offset % 256, Nat.lor (reg * 16 % 256) 8 % 256,
         so % 65536 % 256, so % 65536 / 256 % 256]
      else
        [offset % 256, Nat.lor (reg * 16 % 256) 9 % 256,
         so % 65536 % 256, so % 65536 / 256 % 256,
         so / 65536 % 65536 % 256, so / 65536 % 65536 / 256 % 256]
  | StackAlloc offset size =>
      if size ≤ SMALL_ALLOC_MAX_SIZE then
        [offset % 256, Nat.lor ((size - 8) / 8 % 256 * 16 % 256) 2 % 256]
      else if size ≤ LARGE_ALLOC_16BIT_MAX_SIZE then
        [offset % 256, 1 % 256, size / 8 % 65536 % 256, size / 8 % 65536 / 256 % 256]
      else
        [offset % 256, Nat.lor 16 1 % 256,
         size % 256, size / 256 % 256, size / 65536 % 256, size / 16777216 % 256]

/-- The condition under which `emit` performs no failing assertion of its own
(only the StackAlloc arm asserts). -/
def emit_ok (c : UnwindCode) : Prop :=
  match c with
  | StackAlloc _ size => 8 ≤ size ∧ size % 8 = 0
  | _ => True

/-- A code is well formed for whole-structure emission: its own assertions pass
and its `node_count` agrees with the number of 2-byte slots `emit` writes.
For SaveXmm the two sides test different quantities, so agreement means the
stack offset is outside the band [65536, 1048575]. -/
def validb (c : UnwindCode) : Bool :=
  match c with
  | PushRegister _ _ => true
  | SaveXmm _ _ stack_offset => decide (stack_offset ≤ 65535 ∨ 1048575 < stack_offset)
  | StackAlloc _ size => decide (8 ≤ size ∧ size % 8 = 0)

end UnwindCode

/-- Represents Windows x64 unwind information. -/
structure UnwindInfo where
  flags : Nat
  prologue_size : Nat
  frame_register : Option Nat
  frame_register_offset : Nat
  unwind_codes : List UnwindCode
deriving DecidableEq

namespace UnwindInfo

/-- UnwindInfo::node_count: total number of 2-byte nodes over all codes. -/
def node_count (u : UnwindInfo) : Nat :=
  u.unwind_codes.foldl (fun nodes c => nodes + c.node_count) 0

/-- UnwindInfo::emit_size.  The `assert!(self.flags == 0)` is modelled by
returning `none` for nonzero flags. -/
def emit_size (u : UnwindInfo) : Option Nat :=
  let node_count := u.node_count
  if u.flags = 0 then
    some (4 + node_count * 2 + if Nat.land node_count 1 = 1 then 2 else 0)
  else none

/-- UnwindInfo::emit.  Writes the 4-byte header, the codes in reverse order,
optional 2-byte padding, and finally checks the cursor against `emit_size`
(the Rust `assert_eq!`, modelled as returning `none` on mismatch). -/
def emit (u : UnwindInfo) (buf : List Nat) : Option Writer :=
  let node_count := u.node_count
  if node_count ≤ 256 then
    ((Writer.mk buf 0).write_u8 (Nat.lor (u.flags * 8 % 256) 1)).bind fun w =>
      (w.write_u8 u.prologue_size).bind fun w =>
        (w.write_u8 (node_count % 256)).bind fun w =>
          (match u.frame_register with
            | some reg => w.write_u8 (Nat.lor (u.frame_register_offset * 16 % 256) (reg % 256))
            | none => w.write_u8 0).bind fun w =>
            (u.unwind_codes.reverse.foldlM (fun w (c : UnwindCode) => c.emit w) w).bind fun w =>
              (if Nat.land node_count 1 = 1 then w.write_u16 0 else some w).bind fun w =>
                match u.emit_size with
                | some sz => if w.offset = sz then some w else none
                | none => none
  else none

/-- The four header bytes that a successful `emit` stores at offsets 0 to 3. -/
def headerBytes (u : UnwindInfo) : List Nat :=
  [Nat.lor (u.flags * 8 % 256) 1 % 256,
   u.prologue_size % 256,
   u.node_count % 256,
   (match u.frame_register with
     | some reg => Nat.lor (u.frame_register_offset * 16 % 256) (reg % 256)
     | none => 0) % 256]

end UnwindInfo

/-- The buffer of an optional writer result (empty when the emission failed). -/
def emittedBuf (o : Option Writer) : List Nat :=
  match o with
  | some w => w.buf
  | none => []

/-- Total node count of a list of codes, as a sum over the mapped counts. -/
def totalNodes (l : List UnwindCode) : Nat :=
  (l.map UnwindCode.node_count).sum

/-- Byte position at which the code at list index `t` is written by `emit`:
the header is 4 bytes, and all codes after position `t` are written first. -/
def UnwindInfo.opStart (u : UnwindInfo) (t : Nat) : Nat :=
  4 + 2 * totalNodes (u.unwind_codes.drop (t + 1))

/-- Concrete aggregate with exactly 256 one-node codes (a full node-count byte). -/
def demoPush256 : UnwindInfo :=
  ⟨0, 0, none, 0, List.replicate 256 (UnwindCode.PushRegister 0 0)⟩

/-- Concrete aggregate with 256 nodes built from mixed code shapes:
one one-node push and 85 three-node large stack allocations. -/
def demoMixed256 : UnwindInfo :=
  ⟨0, 5, none, 0, UnwindCode.PushRegister 0 0 :: List.replicate 85 (UnwindCode.StackAlloc 0 524288)⟩

/-- Concrete aggregate with two push codes in ascending prologue-offset order. -/
def demoTwo : UnwindInfo :=
  ⟨0, 11, none, 0, [UnwindCode.PushRegister 2 0, UnwindCode.PushRegister 10 1]⟩

/-- Setting the element right after a prefix replaces the head of the tail. -/
theorem set_at_length (p : List Nat) (b x : Nat) (r : List Nat) :
    (p ++ b :: r).set p.length x = p ++ x :: r := by
  induction p with
  | nil => rfl
  | cons a p ih => simp [List.set, ih]

/-- Writing one byte at the cursor, seen through a prefix decomposition of the buffer. -/
theorem Writer.write_u8_spec (p r : List Nat) (v : Nat) (h : 1 ≤ r.length) :
    Writer.write_u8 ⟨p ++ r, p.length⟩ v =
      some ⟨p ++ [v % 256] ++ r.drop 1, p.length + 1⟩ := by
  rcases r with _ | ⟨b, r⟩
  · simp at h
  · show (if p.length < (p ++ b :: r).length then _ else _) = _
    rw [if_pos (by simp)]
    simp [set_at_length]

/-- Writing one little-endian 16-bit value at the cursor. -/
theorem Writer.write_u16_spec (p r : List Nat) (v : Nat) (h : 2 ≤ r.length) :
    Writer.write_u16 ⟨p ++ r, p.length⟩ v =
      some ⟨p ++ [v % 256, v / 256 % 256] ++ r.drop 2, p.length + 2⟩ := by
  rcases r with _ | ⟨b1, _ | ⟨b2, r⟩⟩
  · simp at h
  · simp at h
  · show (if p.length + 2 ≤ (p ++ b1 :: b2 :: r).length then _ else _) = _
    rw [if_pos (by simp)]
    rw [set_at_length p b1 (v % 256) (b2 :: r)]
    rw [show p ++ v % 256 :: b2 :: r = (p ++ [v % 256]) ++ b2 :: r by simp,
      show p.length + 1 = (p ++ [v % 256]).length by simp,
      set_at_length]
    simp

/-- Writing one little-endian 32-bit value at the cursor. -/
theorem Writer.write_u32_spec (p r : List Nat) (v : Nat) (h : 4 ≤ r.length) :
    Writer.write_u32 ⟨p ++ r, p.length⟩ v =
      some ⟨p ++ [v % 256, v / 256 % 256, v / 65536 % 256, v / 16777216 % 256] ++ r.drop 4,
        p.length + 4⟩ := by
  rcases r with _ | ⟨b1, _ | ⟨b2, _ | ⟨b3, _ | ⟨b4, r⟩⟩⟩⟩
  · simp at h
  · simp at h
  · simp at h
  · simp at h
  · show (if p.length + 4 ≤ (p ++ b1 :: b2 :: b3 :: b4 :: r).length then _ else _) = _
    rw [if_pos (by simp)]
    rw [set_at_length p b1 (v % 256) (b2 :: b3 :: b4 :: r)]
    rw [show p ++ v % 256 :: b2 :: b3 :: b4 :: r = (p ++ [v % 256]) ++ b2 :: b3 :: b4 :: r
        by simp,
      show p.length + 1 = (p ++ [v % 256]).length by simp,
      set_at_length]
    rw [show (p ++ [v % 256]) ++ v / 256 % 256 :: b3 :: b4 :: r =
        (p ++ [v % 256, v / 256 % 256]) ++ b3 :: b4 :: r by simp,
      show p.length + 2 = (p ++ [v % 256, v / 256 % 256]).length by simp,
      set_at_length]
    rw [show (p ++ [v % 256, v / 256 % 256]) ++ v / 65536 % 256 :: b4 :: r =
        (p ++ [v % 256, v / 256 % 256, v / 65536 % 256]) ++ b4 :: r by simp,
      show p.length + 3 = (p ++ [v % 256, v / 256 % 256, v / 65536 % 256]).length by simp,
      set_at_length]
    simp

/-- A code whose own assertions pass writes exactly its `encoding` at the cursor
and advances the cursor by the encoding length. -/
theorem UnwindCode.emit_enc (c : UnwindCode) (p r : List Nat)
    (hok : c.emit_ok) (hr : c.encoding.length ≤ r.length) :
    c.emit ⟨p ++ r, p.length⟩ =
      some ⟨p ++ c.encoding ++ r.drop c.encoding.length, p.length + c.encoding.length⟩ := by
  cases c with
  | PushRegister offset reg =>
      have hr2 : 2 ≤ r.length := by simpa [encoding] using hr
      simp only [emit, encoding]
      rw [Writer.write_u8_spec p r offset (by omega), Option.some_bind,
        show p.length + 1 = (p ++ [offset % 256]).length by simp,
        Writer.write_u8_spec (p ++ [offset % 256]) (r.drop 1) _ (by simp; omega)]
      simp [List.drop_drop, List.append_assoc]
  | SaveXmm offset reg stack_offset =>
      by_cases hso : stack_offset / 16 ≤ 65535
      · have hr4 : 4 ≤ r.length := by simpa [encoding, hso] using hr
        simp only [emit, encoding, if_pos hso]
        rw [Writer.write_u8_spec p r offset (by omega), Option.some_bind,
          show p.length + 1 = (p ++ [offset % 256]).length by simp,
          Writer.write_u8_spec (p ++ [offset % 256]) (r.drop 1) _ (by simp; omega),
          Option.some_bind,
          show (p ++ [offset % 256]).length + 1 =
            ((p ++ [offset % 256]) ++ [Nat.lor (reg * 16 % 256) 8 % 256]).length by simp,
          Writer.write_u16_spec ((p ++ [offset % 256]) ++ [Nat.lor (reg * 16 % 256) 8 % 256])
            ((r.drop 1).drop 1) _ (by simp; omega)]
        simp [List.drop_drop, List.append_assoc]
      · have hr6 : 6 ≤ r.length := by simpa [encoding, hso] using hr
        simp only [emit, encoding, if_neg hso]
        rw [Writer.write_u8_spec p r offset (by omega), Option.some_bind,
          show p.length + 1 = (p ++ [offset % 256]).length by simp,
          Writer.write_u8_spec (p ++ [offset % 256]) (r.drop 1) _ (by simp; omega),
          Option.some_bind,
          show (p ++ [offset % 256]).length + 1 =
            ((p ++ [offset % 256]) ++ [Nat.lor (reg * 16 % 256) 9 % 256]).length by simp,
          Writer.write_u16_spec ((p ++ [offset % 256]) ++ [Nat.lor (reg * 16 % 256) 9 % 256])
            ((r.drop 1).drop 1) _ (by simp; omega),
          Option.some_bind]
        rw [show ((p ++ [offset % 256]) ++ [Nat.lor (reg * 16 % 256) 9 % 256]).length + 2 =
            (((p ++ [offset % 256]) ++ [Nat.lor (reg * 16 % 256) 9 % 256]) ++
              [stack_offset / 16 % 65536 % 256, stack_offset / 16 % 65536 / 256 % 256]).length
            by simp,
          Writer.write_u16_spec
            (((p ++ [offset % 256]) ++ [Nat.lor (reg * 16 % 256) 9 % 256]) ++
              [stack_offset / 16 % 65536 % 256, stack_offset / 16 % 65536 / 256 % 256])
            (((r.drop 1).drop 1).drop 2) _ (by simp [List.drop_drop]; omega)]
        simp [List.drop_drop, List.append_assoc]
  | StackAlloc offset size =>
      simp only [emit_ok] at hok
      by_cases h1 : size ≤ SMALL_ALLOC_MAX_SIZE
      · have hr2 : 2 ≤ r.length := by simpa [encoding, h1] using hr
        simp only [emit, encoding, if_pos hok, if_pos h1]
        rw [Writer.write_u8_spec p r offset (by omega), Option.some_bind,
          show p.length + 1 = (p ++ [offset % 256]).length by simp,
          Writer.write_u8_spec (p ++ [offset % 256]) (r.drop 1) _ (by simp; omega)]
        simp [List.drop_drop, List.append_assoc]
      · by_cases h2 : size ≤ LARGE_ALLOC_16BIT_MAX_SIZE
        · have hr4 : 4 ≤ r.length := by simpa [encoding, h1, h2] using hr
          simp only [emit, encoding, if_pos hok, if_neg h1, if_pos h2]
          rw [Writer.write_u8_spec p r offset (by omega), Option.some_bind,
            show p.length + 1 = (p ++ [offset % 256]).length by simp,
            Writer.write_u8_spec (p ++ [offset % 256]) (r.drop 1) _ (by simp; omega),
            Option.some_bind,
            show (p ++ [offset % 256]).length + 1 =
              ((p ++ [offset % 256]) ++ [1 % 256]).length by simp,
            Writer.write_u16_spec ((p ++ [offset % 256]) ++ [1 % 256])
              ((r.drop 1).drop 1) _ (by simp; omega)]
          simp [List.drop_drop, List.append_assoc]
        · have hr6 : 6 ≤ r.length := by simpa [encoding, h1, h2] using hr
          simp only [emit, encoding, if_pos hok, if_neg h1, if_neg h2]
          rw [Writer.write_u8_spec p r offset (by omega), Option.some_bind,
            show p.length + 1 = (p ++ [offset % 256]).length by simp,
            Writer.write_u8_spec (p ++ [offset % 256]) (r.drop 1) _ (by simp; omega),
            Option.some_bind,
            show (p ++ [offset % 256]).length + 1 =
              ((p ++ [offset % 256]) ++ [Nat.lor 16 1 % 256]).length by simp,
            Writer.write_u32_spec ((p ++ [offset % 256]) ++ [Nat.lor 16 1 % 256])
              ((r.drop 1).drop 1) _ (by simp; omega)]
          simp [List.drop_drop, List.append_assoc]

/-- A well-formed code passes the assertions of its own `emit`. -/
theorem UnwindCode.validb_emit_ok (c : UnwindCode) (h : c.validb = true) : c.emit_ok := by
  cases c with
  | PushRegister offset reg => trivial
  | SaveXmm offset reg stack_offset => trivial
  | StackAlloc offset size =>
      simp only [validb, decide_eq_true_eq] at h
      exact h

/-- For a well-formed code, the encoding occupies exactly `node_count` 2-byte slots. -/
theorem UnwindCode.length_encoding (c : UnwindCode) (h : c.validb = true) :
    c.encoding.length = 2 * c.node_count := by
  cases c with
  | PushRegister offset reg => simp [encoding, node_count]
  | SaveXmm offset reg stack_offset =>
      simp only [validb, decide_eq_true_eq] at h
      rcases h with h | h
      · have hso : stack_offset / 16 ≤ 65535 := by omega
        simp [encoding, node_count, hso, h]
      · have hso : ¬ stack_offset / 16 ≤ 65535 := by omega
        have h2 : ¬ stack_offset ≤ 65535 := by omega
        simp [encoding, node_count, hso, h2]
  | StackAlloc offset size =>
      by_cases h1 : size ≤ SMALL_ALLOC_MAX_SIZE
      · simp [encoding, node_count, h1]
      · by_cases h2 : size ≤ LARGE_ALLOC_16BIT_MAX_SIZE <;>
          simp [encoding, node_count, h1, h2]

theorem totalNodes_nil : totalNodes [] = 0 := rfl

theorem totalNodes_cons (c : UnwindCode) (l : List UnwindCode) :
    totalNodes (c :: l) = c.node_count + totalNodes l := by
  simp [totalNodes]

theorem totalNodes_reverse (l : List UnwindCode) :
    totalNodes l.reverse = totalNodes l := by
  simp [totalNodes, List.sum_reverse]

/-- The aggregate `node_count` field equals the mapped sum over the code list. -/
theorem UnwindInfo.node_count_eq_totalNodes (u : UnwindInfo) :
    u.node_count = totalNodes u.unwind_codes := by
  have key : ∀ (l : List UnwindCode) (n : Nat),
      l.foldl (fun nodes c => nodes + c.node_count) n = n + totalNodes l := by
    intro l
    induction l with
    | nil => intro n; simp [totalNodes]
    | cons c l ih => intro n; simp [totalNodes_cons, ih, Nat.add_assoc]
  simpa using key u.unwind_codes 0

/-- Total byte length of the concatenated encodings of a list of well-formed codes. -/
theorem flatten_encodings_length (l : List UnwindCode)
    (hv : ∀ c ∈ l, c.validb = true) :
    ((l.map UnwindCode.encoding).flatten).length = 2 * totalNodes l := by
  induction l with
  | nil => simp [totalNodes]
  | cons c l ih =>
      have hc := UnwindCode.length_encoding c (hv c (by simp))
      have ihl := ih (fun c hcl => hv c (by simp [hcl]))
      simp [totalNodes_cons, hc, ihl, Nat.mul_add]

/-- Successively emitting a list of well-formed codes writes the concatenation
of their encodings and advances the cursor by two bytes per node. -/
theorem foldlM_emit_enc (l : List UnwindCode) (p r : List Nat)
    (hv : ∀ c ∈ l, c.validb = true) (hr : 2 * totalNodes l ≤ r.length) :
    l.foldlM (fun w (c : UnwindCode) => c.emit w) (⟨p ++ r, p.length⟩ : Writer) =
      some ⟨p ++ (l.map UnwindCode.encoding).flatten ++ r.drop (2 * totalNodes l),
        p.length + 2 * totalNodes l⟩ := by
  induction l generalizing p r with
  | nil => simp [totalNodes]
  | cons c l ih =>
      have hc : c.validb = true := hv c (by simp)
      have hlenc : c.encoding.length = 2 * c.node_count := UnwindCode.length_encoding c hc
      have htc := totalNodes_cons c l
      have hcr : c.encoding.length ≤ r.length := by omega
      rw [List.foldlM_cons,
        UnwindCode.emit_enc c p r (UnwindCode.validb_emit_ok c hc) hcr]
      simp only [Option.bind_eq_bind, Option.some_bind]
      rw [show p.length + c.encoding.length = (p ++ c.encoding).length by simp,
        ih (p ++ c.encoding) (r.drop c.encoding.length)
          (fun c hcl => hv c (by simp [hcl]))
          (by simp; omega)]
      simp [List.drop_drop, List.append_assoc, htc, hlenc, Nat.mul_add]
      omega

/-- Dropping four leading elements plus `k` more. -/
theorem drop_four_cons (a b c d : Nat) (l : List Nat) (k : Nat) :
    (a :: b :: c :: d :: l).drop (4 + k) = l.drop k := by
  rw [show 4 + k = k + 1 + 1 + 1 + 1 by omega]
  simp [List.drop_succ_cons]

/-- The low bit of a natural number is its parity. -/
theorem land_one (n : Nat) : Nat.land n 1 = n % 2 := Nat.and_one_is_mod n

/-- Master characterisation of `UnwindInfo.emit` on a sufficiently large buffer:
for zero flags, well-formed codes and at most 256 nodes, emission succeeds and
the resulting buffer is the header, the encodings of the codes in reverse list
order, the padding for an odd node count, and the untouched tail of the buffer;
the final cursor is the total emitted size. -/
theorem UnwindInfo.emit_spec (u : UnwindInfo) (buf : List Nat)
    (hf : u.flags = 0) (hv : ∀ c ∈ u.unwind_codes, c.validb = true)
    (hn : u.node_count ≤ 256)
    (hlen : 4 + 2 * u.node_count + (if u.node_count % 2 = 1 then 2 else 0) ≤ buf.length) :
    u.emit buf =
      some ⟨u.headerBytes ++ (u.unwind_codes.reverse.map UnwindCode.encoding).flatten
          ++ (if u.node_count % 2 = 1 then [0, 0] else [])
          ++ buf.drop (4 + 2 * u.node_count + (if u.node_count % 2 = 1 then 2 else 0)),
        4 + 2 * u.node_count + (if u.node_count % 2 = 1 then 2 else 0)⟩ := by
  have hbuf4 : 4 ≤ buf.length := by omega
  rcases buf with _ | ⟨a0, _ | ⟨a1, _ | ⟨a2, _ | ⟨a3, rest⟩⟩⟩⟩ <;> simp at hbuf4
  have hlen' : 2 * u.node_count + (if u.node_count % 2 = 1 then 2 else 0) ≤ rest.length := by
    simp at hlen
    omega
  simp only [emit]
  rw [if_pos hn]
  have hmatch : ∀ (w : Writer),
      (match u.frame_register with
        | some reg => w.write_u8 (Nat.lor (u.frame_register_offset * 16 % 256) (reg % 256))
        | none => w.write_u8 0) =
      w.write_u8 (match u.frame_register with
        | some reg => Nat.lor (u.frame_register_offset * 16 % 256) (reg % 256)
        | none => 0) := by
    intro w
    cases u.frame_register <;> rfl
  simp only [hmatch]
  have s0 : ∀ v : Nat, (Writer.mk (a0 :: a1 :: a2 :: a3 :: rest) 0).write_u8 v
      = some ⟨v % 256 :: a1 :: a2 :: a3 :: rest, 1⟩ := by
    intro v
    simp [Writer.write_u8]
  have s1 : ∀ x0 v : Nat, (Writer.mk (x0 :: a1 :: a2 :: a3 :: rest) 1).write_u8 v
      = some ⟨x0 :: v % 256 :: a2 :: a3 :: rest, 2⟩ := by
    intro x0 v
    simp [Writer.write_u8, List.set]
  have s2 : ∀ x0 x1 v : Nat, (Writer.mk (x0 :: x1 :: a2 :: a3 :: rest) 2).write_u8 v
      = some ⟨x0 :: x1 :: v % 256 :: a3 :: rest, 3⟩ := by
    intro x0 x1 v
    simp [Writer.write_u8, List.set]
  have s3 : ∀ x0 x1 x2 v : Nat, (Writer.mk (x0 :: x1 :: x2 :: a3 :: rest) 3).write_u8 v
      = some ⟨x0 :: x1 :: x2 :: v % 256 :: rest, 4⟩ := by
    intro x0 x1 x2 v
    simp [Writer.write_u8, List.set]
  rw [s0, Option.some_bind, s1, Option.some_bind, s2, Option.some_bind, s3, Option.some_bind]
  have hrest : 2 * totalNodes u.unwind_codes.reverse ≤ rest.length := by
    rw [totalNodes_reverse, ← u.node_count_eq_totalNodes]
    omega
  rw [show (⟨Nat.lor (u.flags * 8 % 256) 1 % 256 :: u.prologue_size % 256 ::
        u.node_count % 256 % 256 ::
        (match u.frame_register with
          | some reg => Nat.lor (u.frame_register_offset * 16 % 256) (reg % 256)
          | none => 0) % 256 :: rest, 4⟩ : Writer) =
      ⟨([Nat.lor (u.flags * 8 % 256) 1 % 256, u.prologue_size % 256,
        u.node_count % 256 % 256,
        (match u.frame_register with
          | some reg => Nat.lor (u.frame_register_offset * 16 % 256) (reg % 256)
          | none => 0) % 256] : List Nat) ++ rest,
       ([Nat.lor (u.flags * 8 % 256) 1 % 256, u.prologue_size % 256,
        u.node_count % 256 % 256,
        (match u.frame_register with
          | some reg => Nat.lor (u.frame_register_offset * 16 % 256) (reg % 256)
          | none => 0) % 256] : List Nat).length⟩ by simp,
    foldlM_emit_enc u.unwind_codes.reverse _ rest (by simpa using hv) hrest]
  simp only [Option.bind_eq_bind, Option.some_bind]
  rw [totalNodes_reverse, ← u.node_count_eq_totalNodes]
  rw [show (4 + 2 * u.node_count + (if u.node_count % 2 = 1 then 2 else 0) : Nat) =
      4 + (2 * u.node_count + (if u.node_count % 2 = 1 then 2 else 0)) by omega,
    drop_four_cons]
  by_cases hodd : u.node_count % 2 = 1
  · rw [if_pos (by rw [land_one]; exact hodd)]
    have hr2 : 2 ≤ (rest.drop (2 * u.node_count)).length := by
      rw [if_pos hodd] at hlen'
      simp
      omega
    rw [show ([Nat.lor (u.flags * 8 % 256) 1 % 256, u.prologue_size % 256,
          u.node_count % 256 % 256,
          (match u.frame_register with
            | some reg => Nat.lor (u.frame_register_offset * 16 % 256) (reg % 256)
            | none => 0) % 256] : List Nat).length + 2 * u.node_count =
        (([Nat.lor (u.flags * 8 % 256) 1 % 256, u.prologue_size % 256,
          u.node_count % 256 % 256,
          (match u.frame_register with
            | some reg => Nat.lor (u.frame_register_offset * 16 % 256) (reg % 256)
            | none => 0) % 256] : List Nat) ++
          (u.unwind_codes.reverse.map UnwindCode.encoding).flatten).length by
        rw [List.length_append,
          flatten_encodings_length u.unwind_codes.reverse (by simpa using hv),
          totalNodes_reverse, ← u.node_count_eq_totalNodes],
      Writer.write_u16_spec _ (rest.drop (2 * u.node_count)) 0 hr2]
    have hflat : ((u.unwind_codes.reverse.map UnwindCode.encoding).flatten).length =
        2 * u.node_count := by
      rw [flatten_encodings_length u.unwind_codes.reverse (by simpa using hv),
        totalNodes_reverse, ← u.node_count_eq_totalNodes]
    simp only [Option.some_bind]
    simp only [emit_size, if_pos hf]
    rw [if_pos (by
      rw [List.length_append, hflat, land_one]
      simp [hodd]
      omega)]
    rw [List.length_append, hflat]
    simp [headerBytes, hodd, List.append_assoc, List.drop_drop,
      show (2 : Nat) + 2 * u.node_count = 2 * u.node_count + 2 by omega]
    all_goals omega
  · rw [if_neg (by rw [land_one]; exact hodd), Option.some_bind]
    simp only [emit_size, if_pos hf]
    rw [if_pos (by
      rw [land_one]
      simp [hodd]
      omega)]
    simp [headerBytes, hodd, List.append_assoc]

/-- Dropping more elements can only decrease the total node count. -/
theorem totalNodes_drop_le (l : List UnwindCode) (k : Nat) :
    totalNodes (l.drop k) ≤ totalNodes l := by
  unfold totalNodes
  rw [List.map_drop]
  have := List.sum_take_add_sum_drop (l.map UnwindCode.node_count) k
  omega

/-- Dropping `t` elements exposes the element at index `t` (via `getD`). -/
theorem drop_eq_getD_cons (l : List UnwindCode) (t : Nat) (d : UnwindCode)
    (h : t < l.length) :
    l.drop t = l.getD t d :: l.drop (t + 1) := by
  induction l generalizing t with
  | nil => simp at h
  | cons c l ih =>
      cases t with
      | zero => simp
      | succ t =>
          simp only [List.drop_succ_cons, List.getD_cons_succ]
          exact ih t (by simpa using h)

/-- Splitting the node count of a suffix at its first element. -/
theorem totalNodes_drop_succ (l : List UnwindCode) (t : Nat) (d : UnwindCode)
    (h : t < l.length) :
    totalNodes (l.drop t) = (l.getD t d).node_count + totalNodes (l.drop (t + 1)) := by
  rw [drop_eq_getD_cons l t d h, totalNodes_cons]

/-- Taking a segment that lies inside the left part of an append. -/
theorem drop_take_append (A B : List Nat) (k m : Nat) (h : k + m ≤ A.length) :
    ((A ++ B).drop k).take m = (A.drop k).take m := by
  rw [List.drop_append_of_le_length (by omega),
    List.take_append_of_le_length (by simp; omega)]

/-- Inside the concatenated encodings of the reversed code list, the segment
belonging to the code at original index `t` starts after the encodings of all
later codes and equals that code's encoding. -/
theorem rev_flatten_segment (l : List UnwindCode) (t : Nat) (d : UnwindCode)
    (ht : t < l.length) (hv : ∀ c ∈ l, c.validb = true) :
    (((l.reverse.map UnwindCode.encoding).flatten).drop
        (2 * totalNodes (l.drop (t + 1)))).take (2 * (l.getD t d).node_count) =
      (l.getD t d).encoding := by
  induction l generalizing t with
  | nil => simp at ht
  | cons c l ih =>
      have hc : c.validb = true := hv c (by simp)
      have hlc := UnwindCode.length_encoding c hc
      have hvl : ∀ x ∈ l, x.validb = true := fun x hx => hv x (by simp [hx])
      have hfl : ((l.reverse.map UnwindCode.encoding).flatten).length = 2 * totalNodes l := by
        rw [flatten_encodings_length l.reverse (by simpa using hvl), totalNodes_reverse]
      cases t with
      | zero =>
          simp only [List.reverse_cons, List.map_append, List.flatten_append,
            List.map_cons, List.map_nil, List.flatten_cons, List.flatten_nil,
            List.append_nil, List.drop_succ_cons, List.drop_zero, List.getD_cons_zero]
          rw [show 2 * totalNodes l = ((l.reverse.map UnwindCode.encoding).flatten).length
              from hfl.symm,
            List.drop_left, ← hlc]
          simp
      | succ t =>
          have htl : t < l.length := by simpa using ht
          simp only [List.reverse_cons, List.map_append, List.flatten_append,
            List.map_cons, List.map_nil, List.flatten_cons, List.flatten_nil,
            List.append_nil, List.drop_succ_cons, List.getD_cons_succ]
          rw [drop_take_append _ _ _ _ (by
            have h1 := totalNodes_drop_succ l t d htl
            have h2 := totalNodes_drop_le l t
            omega)]
          exact ih t htl hvl

/-- Bounded bitwise-or of a shifted nibble with a low nibble is addition. -/
theorem lor_mul16 : ∀ x < 16, ∀ o < 16, Nat.lor (x * 16) o = x * 16 + o := by decide

/-- Success of the aggregate `emit` forces `emit_size` to be defined. -/
theorem UnwindInfo.emit_some_size (u : UnwindInfo) (buf : List Nat) (w : Writer)
    (h : u.emit buf = some w) : ∃ sz, u.emit_size = some sz := by
  simp only [emit] at h
  by_cases hn : u.node_count ≤ 256
  · rw [if_pos hn] at h
    rw [Option.bind_eq_some] at h
    obtain ⟨w1, -, h⟩ := h
    rw [Option.bind_eq_some] at h
    obtain ⟨w2, -, h⟩ := h
    rw [Option.bind_eq_some] at h
    obtain ⟨w3, -, h⟩ := h
    rw [Option.bind_eq_some] at h
    obtain ⟨w4, -, h⟩ := h
    rw [Option.bind_eq_some] at h
    obtain ⟨w5, -, h⟩ := h
    rw [Option.bind_eq_some] at h
    obtain ⟨w6, -, h⟩ := h
    cases hsz : u.emit_size with
    | none => rw [hsz] at h; cases h
    | some sz => exact ⟨sz, rfl⟩
  · rw [if_neg hn] at h
    cases h

/-- C1: for a SaveXmm with `stack_offset = 16 * k` and `k ≤ 65535` the claim asserts a
node count of 2 with the opcode-8 short form.  The code disagrees at `k = 4096`
(`stack_offset = 65536`): `node_count` tests the unscaled offset and returns 3, yet
`emit` writes the 2-slot opcode-8 form `[offset, 8, k low byte, k high byte]`, so the
aggregate emission fails its own final size assertion. -/
theorem c1_savexmm_scaled_threshold_bug :
    (UnwindCode.SaveXmm 0 0 65536).node_count = 3 ∧
    (UnwindCode.SaveXmm 0 0 65536).emit ⟨[0, 0, 0, 0, 0, 0], 0⟩ =
      some ⟨[0, 8, 0, 16, 0, 0], 4⟩ ∧
    UnwindInfo.emit ⟨0, 0, none, 0, [UnwindCode.SaveXmm 0 0 65536]⟩ (List.replicate 12 0) =
      none := by
  decide

/-- C2: the aggregate `⟨flags 0, [SaveXmm stack_offset 65536]⟩` meets every stated
precondition (flags zero, the stack offset is a multiple of 16, three nodes), yet
emitting into a buffer of exactly `emit_size` = 12 bytes fails: the writer stops at
offset 10 and the final size assertion fires. -/
theorem c2_emit_exact_size_assert_fails :
    (UnwindInfo.mk 0 0 none 0 [UnwindCode.SaveXmm 0 0 65536]).flags = 0 ∧
    65536 % 16 = 0 ∧
    (UnwindInfo.mk 0 0 none 0 [UnwindCode.SaveXmm 0 0 65536]).node_count ≤ 256 ∧
    (UnwindInfo.mk 0 0 none 0 [UnwindCode.SaveXmm 0 0 65536]).emit_size = some 12 ∧
    (UnwindInfo.mk 0 0 none 0 [UnwindCode.SaveXmm 0 0 65536]).emit (List.replicate 12 0) =
      none := by
  decide

/-- C5: any aggregate with nonzero flags makes both `emit_size` and `emit` fail
(diverge with an assertion) instead of returning a value. -/
theorem c5_nonzero_flags_fail (u : UnwindInfo) (buf : List Nat) (hf : u.flags ≠ 0) :
    u.emit_size = none ∧ u.emit buf = none := by
  have hsize : u.emit_size = none := by
    simp [UnwindInfo.emit_size, hf]
  refine ⟨hsize, ?_⟩
  cases hemit : u.emit buf with
  | none => rfl
  | some w =>
      obtain ⟨sz, hsz⟩ := u.emit_some_size buf w hemit
      rw [hsize] at hsz
      cases hsz

/-- C5 witness: a concrete aggregate with flags 1 on an empty buffer. -/
theorem c5_nonzero_flags_fail_witness :
    (UnwindInfo.mk 1 0 none 0 []).flags ≠ 0 ∧
    ((UnwindInfo.mk 1 0 none 0 []).emit_size = none ∧
      (UnwindInfo.mk 1 0 none 0 []).emit [] = none) :=
  ⟨by decide, c5_nonzero_flags_fail (UnwindInfo.mk 1 0 none 0 []) [] (by decide)⟩

/-- C7: for zero flags, `emit_size` is 4 header bytes plus two bytes per node plus
two bytes of padding exactly when the node count is odd. -/
theorem c7_emit_size_formula (u : UnwindInfo) (hf : u.flags = 0) :
    u.emit_size =
      some (4 + 2 * u.node_count + if u.node_count % 2 = 1 then 2 else 0) := by
  simp [UnwindInfo.emit_size, hf, land_one, Nat.mul_comm]

/-- C7 witness: one push code, one node, odd, so the size is 4 + 2 + 2 = 8. -/
theorem c7_emit_size_formula_witness :
    (UnwindInfo.mk 0 5 none 0 [UnwindCode.PushRegister 0 0]).flags = 0 ∧
    (UnwindInfo.mk 0 5 none 0 [UnwindCode.PushRegister 0 0]).emit_size =
      some (4 + 2 * (UnwindInfo.mk 0 5 none 0 [UnwindCode.PushRegister 0 0]).node_count +
        if (UnwindInfo.mk 0 5 none 0 [UnwindCode.PushRegister 0 0]).node_count % 2 = 1
        then 2 else 0) :=
  ⟨rfl, c7_emit_size_formula (UnwindInfo.mk 0 5 none 0 [UnwindCode.PushRegister 0 0]) rfl⟩

/-- C4: a StackAlloc of valid size emits, depending on its magnitude, the small form
(one node, byte `(size-8)/8 << 4 | 2`), the 16-bit large form (two nodes, opcode
byte 1 followed by `size / 8` little endian), or the 32-bit large form (three nodes,
opcode byte `(1 << 4) | 1 = 17` followed by `size` little endian); in each case the
written size field decodes back to the original size. -/
theorem c4_stackalloc_encoding (off size : Nat) (p r : List Nat)
    (h8 : 8 ≤ size) (hm : size % 8 = 0) (h32 : size < 4294967296)
    (hr : 2 * (UnwindCode.StackAlloc off size).node_count ≤ r.length) :
    (UnwindCode.StackAlloc off size).node_count =
      (if size ≤ 128 then 1 else if size ≤ 524280 then 2 else 3) ∧
    (UnwindCode.StackAlloc off size).emit ⟨p ++ r, p.length⟩ =
      some ⟨p ++ (if size ≤ 128 then [off % 256, (size - 8) / 8 * 16 + 2]
            else if size ≤ 524280 then [off % 256, 1, size / 8 % 256, size / 8 / 256]
            else [off % 256, 17, size % 256, size / 256 % 256, size / 65536 % 256,
              size / 16777216])
          ++ r.drop (2 * (if size ≤ 128 then 1 else if size ≤ 524280 then 2 else 3)),
        p.length + 2 * (if size ≤ 128 then 1 else if size ≤ 524280 then 2 else 3)⟩ ∧
    (if size ≤ 128 then ((size - 8) / 8 * 16 + 2) / 16 * 8 + 8
      else if size ≤ 524280 then (size / 8 % 256 + 256 * (size / 8 / 256)) * 8
      else size % 256 + 256 * (size / 256 % 256) + 65536 * (size / 65536 % 256)
        + 16777216 * (size / 16777216)) = size := by
  have hok : (UnwindCode.StackAlloc off size).emit_ok := ⟨h8, hm⟩
  by_cases h1 : size ≤ 128
  · have henc : (UnwindCode.StackAlloc off size).encoding =
        [off % 256, (size - 8) / 8 * 16 + 2] := by
      simp only [UnwindCode.encoding, SMALL_ALLOC_MAX_SIZE, if_pos h1]
      rw [Nat.mod_eq_of_lt (show (size - 8) / 8 < 256 by omega),
        Nat.mod_eq_of_lt (show (size - 8) / 8 * 16 < 256 by omega),
        lor_mul16 _ (by omega) 2 (by omega),
        Nat.mod_eq_of_lt (show (size - 8) / 8 * 16 + 2 < 256 by omega)]
    have hnc : (UnwindCode.StackAlloc off size).node_count = 1 := by
      simp [UnwindCode.node_count, SMALL_ALLOC_MAX_SIZE, h1]
    refine ⟨by simp [hnc, h1], ?_, by simp only [if_pos h1]; omega⟩
    rw [UnwindCode.emit_enc _ p r hok (by rw [henc]; simpa [hnc] using hr), henc]
    simp [h1]
  · by_cases h2 : size ≤ 524280
    · have henc : (UnwindCode.StackAlloc off size).encoding =
          [off % 256, 1, size / 8 % 256, size / 8 / 256] := by
        simp only [UnwindCode.encoding, SMALL_ALLOC_MAX_SIZE,
          LARGE_ALLOC_16BIT_MAX_SIZE, if_neg h1, if_pos h2]
        rw [Nat.mod_eq_of_lt (show size / 8 < 65536 by omega),
          Nat.mod_eq_of_lt (show size / 8 / 256 < 256 by omega)]
      have hnc : (UnwindCode.StackAlloc off size).node_count = 2 := by
        simp [UnwindCode.node_count, SMALL_ALLOC_MAX_SIZE,
          LARGE_ALLOC_16BIT_MAX_SIZE, h1, h2]
      refine ⟨by simp [hnc, h1, h2], ?_, by simp only [if_neg h1, if_pos h2]; omega⟩
      rw [UnwindCode.emit_enc _ p r hok (by rw [henc]; simpa [hnc] using hr), henc]
      simp [h1, h2]
    · have henc : (UnwindCode.StackAlloc off size).encoding =
          [off % 256, 17, size % 256, size / 256 % 256, size / 65536 % 256,
            size / 16777216] := by
        simp only [UnwindCode.encoding, SMALL_ALLOC_MAX_SIZE,
          LARGE_ALLOC_16BIT_MAX_SIZE, if_neg h1, if_neg h2]
        rw [show Nat.lor 16 1 % 256 = 17 by decide,
          Nat.mod_eq_of_lt (show size / 16777216 < 256 by omega)]
      have hnc : (UnwindCode.StackAlloc off size).node_count = 3 := by
        simp [UnwindCode.node_count, SMALL_ALLOC_MAX_SIZE,
          LARGE_ALLOC_16BIT_MAX_SIZE, h1, h2]
      refine ⟨by simp [hnc, h1, h2], ?_, by simp only [if_neg h1, if_neg h2]; omega⟩
      rw [UnwindCode.emit_enc _ p r hok (by rw [henc]; simpa [hnc] using hr), henc]
      simp [h1, h2]

/-- C4 witness: size 136 selects the 16-bit large form with two nodes, opcode byte 1
and field 17 = 136 / 8. -/
theorem c4_stackalloc_encoding_witness :
    8 ≤ 136 ∧ 136 % 8 = 0 ∧ (136 : Nat) < 4294967296 ∧
    2 * (UnwindCode.StackAlloc 3 136).node_count ≤ ([9, 9, 9, 9] : List Nat).length ∧
    ((UnwindCode.StackAlloc 3 136).node_count = 2 ∧
      (UnwindCode.StackAlloc 3 136).emit ⟨[9, 9, 9, 9], 0⟩ =
        some ⟨[3, 1, 17, 0], 4⟩ ∧
      (136 / 8 % 256 + 256 * (136 / 8 / 256)) * 8 = 136) :=
  ⟨by decide, by decide, by decide, by decide,
    c4_stackalloc_encoding 3 136 [] [9, 9, 9, 9] (by decide) (by decide) (by decide)
      (by decide)⟩

/-- C3: an aggregate of exactly 256 nodes (with zero flags, well-formed codes and a
large enough buffer) passes the node-count check, emission succeeds, and the count
byte at offset 2 is 256 mod 256 = 0, which differs from the true node count. -/
theorem c3_node_count_256_wraps (u : UnwindInfo) (buf : List Nat)
    (hf : u.flags = 0) (hn : u.node_count = 256)
    (hv : u.unwind_codes.all UnwindCode.validb = true)
    (hb : 516 ≤ buf.length) :
    (u.emit buf).isSome = true ∧
    (emittedBuf (u.emit buf))[2]? = some 0 ∧
    (emittedBuf (u.emit buf))[2]? ≠ some u.node_count := by
  have hv' : ∀ c ∈ u.unwind_codes, c.validb = true :=
    fun c hc => List.all_eq_true.mp hv c hc
  have hspec := u.emit_spec buf hf hv' (by omega) (by rw [hn]; simpa using hb)
  refine ⟨by rw [hspec]; rfl, ?_, ?_⟩
  all_goals
    rw [hspec]
    simp only [emittedBuf]
    rw [List.append_assoc, List.append_assoc,
      List.getElem?_append_left (by simp [UnwindInfo.headerBytes])]
    simp [UnwindInfo.headerBytes, hn]

set_option maxRecDepth 40000 in
/-- C3 witness: 256 push codes, a 516-byte buffer. -/
theorem c3_node_count_256_wraps_witness :
    demoPush256.flags = 0 ∧ demoPush256.node_count = 256 ∧
    demoPush256.unwind_codes.all UnwindCode.validb = true ∧
    516 ≤ (List.replicate 516 0 : List Nat).length ∧
    ((demoPush256.emit (List.replicate 516 0)).isSome = true ∧
      (emittedBuf (demoPush256.emit (List.replicate 516 0)))[2]? = some 0 ∧
      (emittedBuf (demoPush256.emit (List.replicate 516 0)))[2]? ≠
        some demoPush256.node_count) :=
  ⟨rfl, by decide, by decide, by decide,
    c3_node_count_256_wraps demoPush256 (List.replicate 516 0) rfl (by decide)
      (by decide) (by decide)⟩

/-- C8: on an exact-size buffer the emitted bytes are precisely the header, the code
encodings in reverse order, and two trailing zero bytes when the node count is odd
and nothing when it is even. -/
theorem c8_padding (u : UnwindInfo) (buf : List Nat)
    (hf : u.flags = 0) (hv : u.unwind_codes.all UnwindCode.validb = true)
    (hn : u.node_count ≤ 256)
    (hb : buf.length = 4 + 2 * u.node_count + (if u.node_count % 2 = 1 then 2 else 0)) :
    u.emit buf =
      some ⟨u.headerBytes ++ (u.unwind_codes.reverse.map UnwindCode.encoding).flatten
          ++ (if u.node_count % 2 = 1 then [0, 0] else []),
        4 + 2 * u.node_count + (if u.node_count % 2 = 1 then 2 else 0)⟩ := by
  have hv' : ∀ c ∈ u.unwind_codes, c.validb = true :=
    fun c hc => List.all_eq_true.mp hv c hc
  have hspec := u.emit_spec buf hf hv' hn (by omega)
  rw [hspec, List.drop_eq_nil_of_le (by omega)]
  simp

/-- C8 witness: a single one-node push code, odd count, so exactly two zero bytes of
padding follow its encoding `[4, 80]` in the 8-byte output. -/
theorem c8_padding_witness :
    (UnwindInfo.mk 0 3 none 0 [UnwindCode.PushRegister 4 5]).flags = 0 ∧
    ([UnwindCode.PushRegister 4 5].all UnwindCode.validb) = true ∧
    (UnwindInfo.mk 0 3 none 0 [UnwindCode.PushRegister 4 5]).node_count ≤ 256 ∧
    (List.replicate 8 6 : List Nat).length =
      4 + 2 * (UnwindInfo.mk 0 3 none 0 [UnwindCode.PushRegister 4 5]).node_count +
        (if (UnwindInfo.mk 0 3 none 0 [UnwindCode.PushRegister 4 5]).node_count % 2 = 1
          then 2 else 0) ∧
    (UnwindInfo.mk 0 3 none 0 [UnwindCode.PushRegister 4 5]).emit (List.replicate 8 6) =
      some ⟨[1, 3, 1, 0, 4, 80, 0, 0], 8⟩ :=
  ⟨rfl, by decide, by decide, by decide,
    c8_padding (UnwindInfo.mk 0 3 none 0 [UnwindCode.PushRegister 4 5])
      (List.replicate 8 6) rfl (by decide) (by decide) (by decide)⟩

set_option maxRecDepth 40000 in
/-- C9 counterexample: at exactly 256 nodes emission succeeds but the count byte at
offset 2 is 0, not the node count, so the claim that byte 2 equals the total node
count is false as stated. -/
theorem c9_count_byte_counterexample :
    demoMixed256.node_count = 256 ∧
    (demoMixed256.emit (List.replicate 516 0)).isSome = true ∧
    (emittedBuf (demoMixed256.emit (List.replicate 516 0)))[2]? = some 0 ∧
    (emittedBuf (demoMixed256.emit (List.replicate 516 0)))[2]? ≠
      some demoMixed256.node_count := by
  have hnc : demoMixed256.node_count = 256 := by decide
  have hv' : ∀ c ∈ demoMixed256.unwind_codes, c.validb = true := by decide
  have hspec := demoMixed256.emit_spec (List.replicate 516 0) rfl hv' (by omega)
    (by rw [hnc]; decide)
  refine ⟨hnc, by rw [hspec]; rfl, ?_, ?_⟩
  all_goals
    rw [hspec]
    simp only [emittedBuf]
    rw [List.append_assoc, List.append_assoc,
      List.getElem?_append_left (by simp [UnwindInfo.headerBytes])]
    simp [UnwindInfo.headerBytes, hnc]

/-- C9 (amended): on success the header is byte 0 = `(flags << 3) | 1`, byte 1 = the
prologue size, byte 2 = the node count **mod 256**, and byte 3 = the packed frame
register byte, or 0 when no frame register is designated (all as 8-bit values). -/
theorem c9_header_bytes (u : UnwindInfo) (buf : List Nat)
    (hf : u.flags = 0) (hv : u.unwind_codes.all UnwindCode.validb = true)
    (hn : u.node_count ≤ 256)
    (hb : 4 + 2 * u.node_count + (if u.node_count % 2 = 1 then 2 else 0) ≤ buf.length) :
    (u.emit buf).isSome = true ∧
    (emittedBuf (u.emit buf))[0]? = some (Nat.lor (u.flags * 8 % 256) 1 % 256) ∧
    (emittedBuf (u.emit buf))[1]? = some (u.prologue_size % 256) ∧
    (emittedBuf (u.emit buf))[2]? = some (u.node_count % 256) ∧
    (emittedBuf (u.emit buf))[3]? =
      some ((match u.frame_register with
          | some reg => Nat.lor (u.frame_register_offset * 16 % 256) (reg % 256)
          | none => 0) % 256) := by
  have hv' : ∀ c ∈ u.unwind_codes, c.validb = true :=
    fun c hc => List.all_eq_true.mp hv c hc
  have hspec := u.emit_spec buf hf hv' hn hb
  refine ⟨by rw [hspec]; rfl, ?_, ?_, ?_, ?_⟩
  all_goals
    rw [hspec]
    simp only [emittedBuf]
    rw [List.append_assoc, List.append_assoc,
      List.getElem?_append_left (by simp [UnwindInfo.headerBytes])]
    simp [UnwindInfo.headerBytes]

/-- C9 witness: one push code, prologue size 7, frame register 5 at offset 3; the
header is `[1, 7, 1, 53]` since `(3 << 4) | 5 = 53`. -/
theorem c9_header_bytes_witness :
    (UnwindInfo.mk 0 7 (some 5) 3 [UnwindCode.PushRegister 2 4]).flags = 0 ∧
    ([UnwindCode.PushRegister 2 4].all UnwindCode.validb) = true ∧
    (UnwindInfo.mk 0 7 (some 5) 3 [UnwindCode.PushRegister 2 4]).node_count ≤ 256 ∧
    4 + 2 * (UnwindInfo.mk 0 7 (some 5) 3 [UnwindCode.PushRegister 2 4]).node_count +
      (if (UnwindInfo.mk 0 7 (some 5) 3 [UnwindCode.PushRegister 2 4]).node_count % 2 = 1
        then 2 else 0) ≤ (List.replicate 8 1 : List Nat).length ∧
    (((UnwindInfo.mk 0 7 (some 5) 3 [UnwindCode.PushRegister 2 4]).emit
        (List.replicate 8 1)).isSome = true ∧
      (emittedBuf ((UnwindInfo.mk 0 7 (some 5) 3 [UnwindCode.PushRegister 2 4]).emit
        (List.replicate 8 1)))[0]? = some 1 ∧
      (emittedBuf ((UnwindInfo.mk 0 7 (some 5) 3 [UnwindCode.PushRegister 2 4]).emit
        (List.replicate 8 1)))[1]? = some 7 ∧
      (emittedBuf ((UnwindInfo.mk 0 7 (some 5) 3 [UnwindCode.PushRegister 2 4]).emit
        (List.replicate 8 1)))[2]? = some 1 ∧
      (emittedBuf ((UnwindInfo.mk 0 7 (some 5) 3 [UnwindCode.PushRegister 2 4]).emit
        (List.replicate 8 1)))[3]? = some 53) :=
  ⟨rfl, by decide, by decide, by decide,
    c9_header_bytes (UnwindInfo.mk 0 7 (some 5) 3 [UnwindCode.PushRegister 2 4])
      (List.replicate 8 1) rfl (by decide) (by decide) (by decide)⟩

/-- Dropping the length of the left part of an append plus `k` more elements. -/
theorem drop_append_len (A B : List Nat) (k : Nat) :
    (A ++ B).drop (A.length + k) = B.drop k := by
  induction A with
  | nil => simp
  | cons a A ih =>
      simp only [List.cons_append, List.length_cons]
      rw [show A.length + 1 + k = (A.length + k) + 1 by omega, List.drop_succ_cons]
      exact ih

/-- The header always occupies four bytes. -/
theorem UnwindInfo.headerBytes_length (u : UnwindInfo) : u.headerBytes.length = 4 := by
  simp [headerBytes]

/-- C6: emission writes the codes in reverse list order; for indices `i < j` the
encoding of code `j` occupies the byte range starting at `opStart j`, the encoding
of code `i` the range starting at `opStart i`, and the whole range of code `j`
lies strictly before the range of code `i`. -/
theorem c6_reverse_emission_order (u : UnwindInfo) (buf : List Nat) (i j : Nat)
    (hf : u.flags = 0) (hv : u.unwind_codes.all UnwindCode.validb = true)
    (hn : u.node_count ≤ 256)
    (hb : 4 + 2 * u.node_count + (if u.node_count % 2 = 1 then 2 else 0) ≤ buf.length)
    (hij : i < j) (hj : j < u.unwind_codes.length) :
    (u.emit buf).isSome = true ∧
    ((emittedBuf (u.emit buf)).drop (u.opStart j)).take
        (2 * (u.unwind_codes.getD j (UnwindCode.PushRegister 0 0)).node_count) =
      (u.unwind_codes.getD j (UnwindCode.PushRegister 0 0)).encoding ∧
    ((emittedBuf (u.emit buf)).drop (u.opStart i)).take
        (2 * (u.unwind_codes.getD i (UnwindCode.PushRegister 0 0)).node_count) =
      (u.unwind_codes.getD i (UnwindCode.PushRegister 0 0)).encoding ∧
    u.opStart j + 2 * (u.unwind_codes.getD j (UnwindCode.PushRegister 0 0)).node_count ≤
      u.opStart i := by
  have hv' : ∀ c ∈ u.unwind_codes, c.validb = true :=
    fun c hc => List.all_eq_true.mp hv c hc
  have hspec := u.emit_spec buf hf hv' hn hb
  have hflat : ((u.unwind_codes.reverse.map UnwindCode.encoding).flatten).length =
      2 * totalNodes u.unwind_codes := by
    rw [flatten_encodings_length u.unwind_codes.reverse (by simpa using hv'),
      totalNodes_reverse]
  have hseg : ∀ t, t < u.unwind_codes.length →
      ((emittedBuf (u.emit buf)).drop (u.opStart t)).take
          (2 * (u.unwind_codes.getD t (UnwindCode.PushRegister 0 0)).node_count) =
        (u.unwind_codes.getD t (UnwindCode.PushRegister 0 0)).encoding := by
    intro t ht
    rw [hspec]
    simp only [emittedBuf, UnwindInfo.opStart]
    rw [List.append_assoc, List.append_assoc,
      show 4 + 2 * totalNodes (u.unwind_codes.drop (t + 1)) =
        u.headerBytes.length + 2 * totalNodes (u.unwind_codes.drop (t + 1)) by
        rw [u.headerBytes_length],
      drop_append_len,
      drop_take_append _ _ _ _ (by
        have h1 := totalNodes_drop_succ u.unwind_codes t (UnwindCode.PushRegister 0 0) ht
        have h2 := totalNodes_drop_le u.unwind_codes t
        omega)]
    exact rev_flatten_segment u.unwind_codes t (UnwindCode.PushRegister 0 0) ht hv'
  refine ⟨by rw [hspec]; rfl, hseg j hj, hseg i (lt_trans hij hj), ?_⟩
  have h1 := totalNodes_drop_succ u.unwind_codes j (UnwindCode.PushRegister 0 0) hj
  have h2 := totalNodes_drop_le (u.unwind_codes.drop (i + 1)) (j - (i + 1))
  rw [List.drop_drop, show i + 1 + (j - (i + 1)) = j by omega] at h2
  simp only [UnwindInfo.opStart]
  omega

/-- C6 witness: two push codes at prologue offsets 2 and 10; in the output the code
with offset 10 occupies bytes 4 and 5 and the code with offset 2 occupies bytes 6
and 7, so the later-listed code is emitted first. -/
theorem c6_reverse_emission_order_witness :
    demoTwo.flags = 0 ∧ demoTwo.unwind_codes.all UnwindCode.validb = true ∧
    demoTwo.node_count ≤ 256 ∧
    4 + 2 * demoTwo.node_count + (if demoTwo.node_count % 2 = 1 then 2 else 0) ≤
      (List.replicate 8 7 : List Nat).length ∧
    0 < 1 ∧ 1 < demoTwo.unwind_codes.length ∧
    ((demoTwo.emit (List.replicate 8 7)).isSome = true ∧
      ((emittedBuf (demoTwo.emit (List.replicate 8 7))).drop 4).take 2 = [10, 16] ∧
      ((emittedBuf (demoTwo.emit (List.replicate 8 7))).drop 6).take 2 = [2, 0] ∧
      4 + 2 ≤ 6) :=
  ⟨rfl, by decide, by decide, by decide, by decide, by decide,
    c6_reverse_emission_order demoTwo (List.replicate 8 7) 0 1 rfl (by decide) (by decide)
      (by decide) (by decide) (by decide)⟩

/-- C10: a SaveXmm whose stack offset is not a multiple of 16 is never rejected:
`emit` makes no alignment check, succeeds whenever the buffer has room, and writes
exactly the bytes it would write for the offset rounded down to `16 * (so / 16)`. -/
theorem c10_savexmm_no_alignment_check (off reg so : Nat) (p r : List Nat)
    (hr : 6 ≤ r.length) :
    (UnwindCode.SaveXmm off reg so).emit ⟨p ++ r, p.length⟩ =
      some ⟨p ++ (UnwindCode.SaveXmm off reg so).encoding
          ++ r.drop (UnwindCode.SaveXmm off reg so).encoding.length,
        p.length + (UnwindCode.SaveXmm off reg so).encoding.length⟩ ∧
    (UnwindCode.SaveXmm off reg so).encoding =
      (UnwindCode.SaveXmm off reg (so / 16 * 16)).encoding := by
  have hlen : (UnwindCode.SaveXmm off reg so).encoding.length ≤ 6 := by
    by_cases h : so / 16 ≤ 65535 <;> simp [UnwindCode.encoding, h]
  constructor
  · exact UnwindCode.emit_enc _ p r True.intro (by omega)
  · have hdiv : so / 16 * 16 / 16 = so / 16 := Nat.mul_div_left (so / 16) (by norm_num)
    simp only [UnwindCode.encoding, hdiv]

/-- C10 witness: the misaligned stack offset 37 is encoded exactly like the aligned
offset 32, with scaled field 2 and no failure. -/
theorem c10_savexmm_no_alignment_check_witness :
    6 ≤ (List.replicate 6 0 : List Nat).length ∧
    ((UnwindCode.SaveXmm 1 2 37).emit ⟨List.replicate 6 0, 0⟩ =
        some ⟨[1, 40, 2, 0, 0, 0], 4⟩ ∧
      (UnwindCode.SaveXmm 1 2 37).encoding = (UnwindCode.SaveXmm 1 2 32).encoding) :=
  ⟨by decide,
    c10_savexmm_no_alignment_check 1 2 37 [] (List.replicate 6 0) (by decide)⟩

end Winx64
